import Mathlib

/-!
Verification of the furnace heat-loss calculator (`src/main.py`).

The development shallowly embeds the three core components of the program:

* the material property table (`MaterialManager`: `get_params`, `upsert`,
  `delete`, `rename`), modelled over `ℚ` coefficients (the table performs no
  arithmetic, only name-keyed updates, so rationals carry the float values
  exactly);
* the unit converter (`UnitConverter.to_si`/`from_si`), modelled over an
  extended value type `FloatV` that distinguishes finite values from the
  IEEE special values `inf`/`-inf`/`nan`, since the claims discuss
  non-finite inputs; a raised `KeyError`/`TypeError` is modelled as `none`;
* the thermal solver inside `calculate` (lines 295-399), modelled over `ℝ`:
  the fan velocity / correction factor, the layer construction from the
  inner radius, the outer bisection loop with its per-candidate energy
  balance, and the nested per-layer fixed-point iteration.
-/

namespace Furnace

/-! ### Material property table (src/main.py lines 82-105) -/

structure Material where
  name : String
  a : ℚ
  b : ℚ
deriving DecidableEq, Repr

/-- `MaterialManager.get_params`: first entry whose name matches, defaulting
to `(1.0, 0.0)`. -/
def get_params : List Material → String → ℚ × ℚ
  | [], _ => (1, 0)
  | d :: ds, nm => if d.name = nm then (d.a, d.b) else get_params ds nm

/-- `MaterialManager.upsert`: replace the coefficients of the first entry
with a matching name, else append a new entry. -/
def upsert : List Material → String → ℚ → ℚ → List Material
  | [], nm, a, b => [⟨nm, a, b⟩]
  | d :: ds, nm, a, b =>
      if d.name = nm then ⟨nm, a, b⟩ :: ds else d :: upsert ds nm a b

/-- `MaterialManager.delete`: remove every entry with the given name. -/
def delete (tbl : List Material) (nm : String) : List Material :=
  tbl.filter (fun d => d.name != nm)

/-- `MaterialManager.rename`: delete the old name, then upsert the new one. -/
def rename (tbl : List Material) (oldN newN : String) (a b : ℚ) : List Material :=
  upsert (delete tbl oldN) newN a b

/-- Name column of the table. -/
def names (tbl : List Material) : List String := tbl.map Material.name

/-! ### Unit conversion (src/main.py lines 54-80) -/

/-- A Python float for the purposes of the converter: a finite value
(carried exactly as a rational) or one of the special values. -/
inductive FloatV where
  | fin : ℚ → FloatV
  | inf : FloatV
  | ninf : FloatV
  | nan : FloatV
deriving DecidableEq, Repr

/-- Multiplication by a positive constant factor, on extended values. -/
def scaleV (k : ℚ) : FloatV → FloatV
  | .fin q => .fin (q * k)
  | .inf => .inf
  | .ninf => .ninf
  | .nan => .nan

/-- Addition of a constant, on extended values. -/
def shiftV (c : ℚ) : FloatV → FloatV
  | .fin q => .fin (q + c)
  | .inf => .inf
  | .ninf => .ninf
  | .nan => .nan

/-- The `UnitConverter.UNITS` factor tables for the purely multiplicative
categories (the `Temp` category is handled separately, as in the code). -/
def factorTable : List (String × List (String × ℚ)) :=
  [("Length", [("mm", 1/1000), ("m", 1), ("cm", 1/100), ("in", 254/10000)]),
   ("Power", [("W", 1), ("kW", 1000), ("kcal/h", 116222/100000), ("MJ/h", 277778/1000)]),
   ("Flux", [("W/m²", 1), ("kW/m²", 1000), ("kcal/(m²·h)", 116222/100000)]),
   ("Conductivity", [("W/(m·K)", 1), ("kcal/(m·h·°C)", 116222/100000)]),
   ("Coeff", [("W/(m²·K)", 1), ("kcal/(m²·h·°C)", 116222/100000)]),
   ("Velocity", [("m/s", 1), ("km/h", 27778/100000), ("ft/min", 508/100000)]),
   ("Area", [("m²", 1), ("cm²", 1/10000), ("ft²", 929/10000)])]

/-- `UNITS[cat][unit]`; `none` models the `KeyError` raised on a missing key. -/
def lookupFactor (cat unit : String) : Option ℚ :=
  (factorTable.lookup cat).bind (fun tbl => tbl.lookup unit)

/-- `UnitConverter.to_si` (lines 66-72).  For `Temp`, the three recognized
units convert by the affine formulas; any other unit under `Temp`, and any
missing category/unit key, raises (`none`). -/
def to_si (v : FloatV) (unit cat : String) : Option FloatV :=
  if cat = "Temp" then
    if unit = "°C" then some v
    else if unit = "K" then some (shiftV (-(27315/100)) v)
    else if unit = "°F" then some (scaleV (5/9) (shiftV (-32) v))
    else none
  else
    match lookupFactor cat unit with
    | some k => some (scaleV k v)
    | none => none

/-- `UnitConverter.from_si` (lines 74-80). -/
def from_si (v : FloatV) (unit cat : String) : Option FloatV :=
  if cat = "Temp" then
    if unit = "°C" then some v
    else if unit = "K" then some (shiftV (27315/100) v)
    else if unit = "°F" then some (shiftV 32 (scaleV (9/5) v))
    else none
  else
    match lookupFactor cat unit with
    | some k => some (scaleV k⁻¹ v)
    | none => none

/-- A `(cat, unit)` key pair is recognized by the `UNITS` table. -/
def recognizedKey (unit cat : String) : Bool :=
  if cat = "Temp" then unit = "°C" || unit = "K" || unit = "°F"
  else (lookupFactor cat unit).isSome

/-- A value is a finite number. -/
def FloatV.isFinite : FloatV → Bool
  | .fin _ => true
  | _ => false

/-! ### Thermal solver (src/main.py lines 295-399)

The numerical core is embedded over `ℝ`.  The Python code computes each
per-iteration quantity once into a local variable; here the same quantities
are given by small named functions of the candidate surface temperature,
which the loop and the result record both reference. -/

noncomputable section

/-- Furnace orientation (`炉体位置` dropdown). -/
inductive Position where
  | wall
  | roof
  | floor
deriving DecidableEq, Repr

/-- Line 314: `Cpos = 2.8 if "顶" in pos_val else (1.5 if "底" in pos_val else 2.2)`. -/
def cposOf : Position → ℝ
  | .wall => 2.2
  | .roof => 2.8
  | .floor => 1.5

/-- A layer row after material lookup: conductivity law coefficients and
SI thickness. -/
structure LayerSpec where
  a : ℝ
  b : ℝ
  thick : ℝ

/-- A resolved layer with its radii (lines 316-326). -/
structure Layer where
  a : ℝ
  b : ℝ
  ri : ℝ
  ro : ℝ

/-- Lines 317-326: layers are seeded at the bore radius `D/2`; the outer
radius of each layer is the inner radius of the next. -/
def mkLayers (rc : ℝ) : List LayerSpec → List Layer
  | [] => []
  | s :: rest => ⟨s.a, s.b, rc, rc + s.thick⟩ :: mkLayers (rc + s.thick) rest

/-- The running radius after all layers (the `rc` variable after the loop). -/
def outerRadius (rc : ℝ) : List LayerSpec → ℝ
  | [] => rc
  | s :: rest => outerRadius (rc + s.thick) rest

/-- Lines 308-309: fan-induced outlet velocity. -/
def vfan (q d : ℝ) : ℝ :=
  if 0 < q ∧ 0 < d then q / (Real.pi * (d/2)^2) else 0

/-- Line 310: `vtot = vnat + vfan`. -/
def vtotal (vn q d : ℝ) : ℝ := vn + vfan q d

/-- Line 311: `xi = sqrt((vtot+0.348)/0.348)`. -/
def xiFactor (vn q d : ℝ) : ℝ :=
  Real.sqrt ((vtotal vn q d + 0.348) / 0.348)

/-- One update of the per-layer implicit equation (lines 349-352): compute
the conductivity at the running average temperature, clamp it to `0.01`,
and recompute the inner-face estimate. -/
def fpStep (a b curr term ti : ℝ) : ℝ :=
  curr + term / (if a + b * ((curr + ti)/2) < 0.01 then 0.01 else a + b * ((curr + ti)/2))

/-- The inner fixed-point loop (lines 347-354): up to `fuel` updates,
breaking as soon as two successive estimates differ by less than `0.1`. -/
def fixpointIter (a b curr term : ℝ) : ℕ → ℝ → ℝ
  | 0, ti => ti
  | n+1, ti =>
      if |fpStep a b curr term ti - ti| < 0.1 then fpStep a b curr term ti
      else fixpointIter a b curr term n (fpStep a b curr term ti)

/-- Lines 345-346: the cylindrical-shell conduction term
`(Q/H)·ln(ro/ri)/(2π)` of a layer. -/
def layerTerm (H Q : ℝ) (l : Layer) : ℝ :=
  ((Q / H) * Real.log (l.ro / l.ri)) / (2 * Real.pi)

/-- Lines 342-356: the conduction back-propagation.  Input is the layer
list already reversed (outermost first, as in `reversed(layers)`); the
result is the reconstructed inner temperature together with the list of
recorded inner-face temperatures in traversal (outer → inner) order. -/
def sweep (H Q : ℝ) : ℝ → List Layer → ℝ × List ℝ
  | curr, [] => (curr, [])
  | curr, l :: ls =>
      let ti := fixpointIter l.a l.b curr (layerTerm H Q l) 5 (curr + 10)
      let rest := sweep H Q ti ls
      (rest.1, ti :: rest.2)

/-- The solver context: all quantities fixed before the bisection loop. -/
structure Ctx where
  H : ℝ
  ta : ℝ
  t0 : ℝ
  eps : ℝ
  Cpos : ℝ
  xiv : ℝ
  vtot : ℝ
  Aout : ℝ
  layers : List Layer

/-- Lines 334-335: `dt = ts - ta`, clamped below at `1e-3`. -/
def dtOf (c : Ctx) (ts : ℝ) : ℝ :=
  if ts - c.ta < 1e-3 then 1e-3 else ts - c.ta

/-- Lines 336-337: convective film coefficient `Cpos·dt^0.25·ξ`. -/
def hconvOf (c : Ctx) (ts : ℝ) : ℝ :=
  c.Cpos * (dtOf c ts) ^ (0.25:ℝ) * c.xiv

/-- Line 338: linearized radiative coefficient. -/
def hradOf (c : Ctx) (ts : ℝ) : ℝ :=
  c.eps * 5.67e-8 * ((ts + 273.15)^4 - (c.ta + 273.15)^4) / dtOf c ts

/-- Line 339: `htot = hconv + hrad`. -/
def htotOf (c : Ctx) (ts : ℝ) : ℝ := hconvOf c ts + hradOf c ts

/-- Line 340: candidate heat loss `Q = htot·Aout·dt`. -/
def QOf (c : Ctx) (ts : ℝ) : ℝ := htotOf c ts * c.Aout * dtOf c ts

/-- The reconstructed inner-wall temperature for a candidate `ts`
(the `curr` variable after the layer loop). -/
def currAt (c : Ctx) (ts : ℝ) : ℝ :=
  (sweep c.H (QOf c ts) ts c.layers.reverse).1

/-- The solver's result record (lines 365-369, presentation fields omitted). -/
structure ThermalResult where
  Q : ℝ
  q : ℝ
  ts : ℝ
  h_tot : ℝ
  h_conv : ℝ
  h_rad : ℝ
  xi : ℝ
  v_tot : ℝ
  temps : List ℝ
  Aout : ℝ

/-- The result built at convergence for the candidate `ts`:
`temps` is the traversal list `[ts, ..., reconstructed inner]` reversed,
hence ordered from innermost to outermost (lines 363-369). -/
def mkRes (c : Ctx) (ts : ℝ) : ThermalResult :=
  { Q := QOf c ts
    q := QOf c ts / c.Aout
    ts := ts
    h_tot := htotOf c ts
    h_conv := hconvOf c ts
    h_rad := hradOf c ts
    xi := c.xiv
    v_tot := c.vtot
    temps := (ts :: (sweep c.H (QOf c ts) ts c.layers.reverse).2).reverse
    Aout := c.Aout }

/-- Lines 329-395: the outer bisection.  Each iteration evaluates the
midpoint, moves the matching end of the bracket, and stops with a result
once `|high - low| < 0.05`; exhausting the fuel (60 in the code) models the
`计算未收敛` (non-convergence) branch as `none`. -/
def bisect (c : Ctx) (low high : ℝ) : ℕ → Option ThermalResult
  | 0 => none
  | n+1 =>
      if |(if currAt c ((low + high)/2) < c.t0 then high else (low + high)/2) -
          (if currAt c ((low + high)/2) < c.t0 then (low + high)/2 else low)| < 0.05 then
        some (mkRes c ((low + high)/2))
      else
        bisect c (if currAt c ((low + high)/2) < c.t0 then (low + high)/2 else low)
                 (if currAt c ((low + high)/2) < c.t0 then high else (low + high)/2) n

/-- The solver's inputs, already in SI units (lines 297-306). -/
structure Params where
  D : ℝ
  H : ℝ
  t0 : ℝ
  ta : ℝ
  eps : ℝ
  vnat : ℝ
  q_si : ℝ
  fdia : ℝ
  pos : Position
  specs : List LayerSpec

/-- Lines 308-328: the pre-loop computation assembling the context. -/
def ctxOf (p : Params) : Ctx :=
  { H := p.H
    ta := p.ta
    t0 := p.t0
    eps := p.eps
    Cpos := cposOf p.pos
    xiv := xiFactor p.vnat p.q_si p.fdia
    vtot := vtotal p.vnat p.q_si p.fdia
    Aout := 2 * Real.pi * outerRadius (p.D/2) p.specs * p.H
    layers := mkLayers (p.D/2) p.specs }

/-- The whole `calculate` computation (lines 295-395): 60 bisection
iterations on the bracket `[ta, t0]`. -/
def calculate (p : Params) : Option ThermalResult :=
  bisect (ctxOf p) p.ta p.t0 60

/-- Concrete input with a degenerate bracket `t0 = ta = 25` and a single
constant-conductivity layer (`a = 1`, `b = 0`, thickness 1, bore 2). -/
def inpW1 : Params :=
  { D := 2, H := 1, t0 := 25, ta := 25, eps := 9/10, vnat := 0, q_si := 0,
    fdia := 0, pos := .wall, specs := [⟨1, 0, 1⟩] }

/-- Concrete input with a nondegenerate bracket `[0, 1]` and no layers. -/
def inpW0 : Params :=
  { D := 2, H := 1, t0 := 1, ta := 0, eps := 9/10, vnat := 0, q_si := 0,
    fdia := 0, pos := .wall, specs := [] }

end

/-! ### Helper lemmas: material table -/

theorem names_nil : names [] = [] := rfl

theorem names_cons (d : Material) (ds : List Material) :
    names (d :: ds) = d.name :: names ds := rfl

theorem names_upsert_mem {tbl : List Material} {nm : String} (a b : ℚ)
    (h : nm ∈ names tbl) : names (upsert tbl nm a b) = names tbl := by
  induction tbl with
  | nil => simp [names] at h
  | cons d ds ih =>
      rw [names_cons] at h
      simp only [upsert]
      by_cases hd : d.name = nm
      · rw [if_pos hd, names_cons, names_cons, hd]
      · have h' : nm ∈ names ds := by
          rcases List.mem_cons.mp h with h1 | h1
          · exact absurd h1.symm hd
          · exact h1
        rw [if_neg hd, names_cons, names_cons, ih h']

theorem names_upsert_not_mem {tbl : List Material} {nm : String} (a b : ℚ)
    (h : nm ∉ names tbl) : names (upsert tbl nm a b) = names tbl ++ [nm] := by
  induction tbl with
  | nil => rfl
  | cons d ds ih =>
      rw [names_cons] at h
      have hd : d.name ≠ nm := fun hc => h (hc ▸ List.mem_cons_self _ _)
      have h' : nm ∉ names ds := fun hc => h (List.mem_cons_of_mem _ hc)
      simp only [upsert]
      rw [if_neg hd, names_cons, names_cons, ih h', List.cons_append]

theorem nodup_upsert {tbl : List Material} {nm : String} (a b : ℚ)
    (h : (names tbl).Nodup) : (names (upsert tbl nm a b)).Nodup := by
  by_cases hm : nm ∈ names tbl
  · rw [names_upsert_mem a b hm]; exact h
  · rw [names_upsert_not_mem a b hm]
    refine List.Nodup.append h (List.nodup_singleton nm) ?_
    intro x hx hx'
    rw [List.mem_singleton] at hx'
    exact hm (hx' ▸ hx)

theorem nodup_delete (tbl : List Material) (nm : String)
    (h : (names tbl).Nodup) : (names (delete tbl nm)).Nodup :=
  List.Nodup.sublist (List.Sublist.map Material.name (List.filter_sublist tbl)) h

theorem get_upsert (tbl : List Material) (nm : String) (a b : ℚ) :
    get_params (upsert tbl nm a b) nm = (a, b) := by
  induction tbl with
  | nil => simp [upsert, get_params]
  | cons d ds ih =>
      by_cases hd : d.name = nm
      · simp [upsert, hd, get_params]
      · simp [upsert, hd, get_params, ih]

/-! ### Claims C6-C9 -/

/-- C6: `to_si`/`from_si` report an error (no partial result) exactly when
the unit key or the category key is unrecognized; this is the amended form —
the code does NOT reject non-finite input values (see the counterexample). -/
theorem C6_claim (v : FloatV) (unit cat : String) :
    (to_si v unit cat = none ↔ recognizedKey unit cat = false) ∧
    (from_si v unit cat = none ↔ recognizedKey unit cat = false) := by
  unfold to_si from_si recognizedKey
  by_cases hc : cat = "Temp"
  · by_cases h1 : unit = "°C" <;> by_cases h2 : unit = "K" <;>
      by_cases h3 : unit = "°F" <;> simp [hc, h1, h2, h3]
  · cases h : lookupFactor cat unit <;> simp [hc, h]

/-- C6 counterexample: the claim asserts conversion fails on a non-finite
input, but a `nan` with recognized keys is converted to `some nan` — a
result is produced, not an error. -/
theorem C6_counterexample :
    to_si FloatV.nan "mm" "Length" = some FloatV.nan ∧
    from_si FloatV.nan "mm" "Length" = some FloatV.nan ∧
    FloatV.nan.isFinite = false := by decide

/-- C7: `get_params` never throws; it returns the default pair `(1, 0)` when
the name is absent, and the entry's own coefficients when present (names
being unique, per the table invariant). -/
theorem C7_claim (tbl : List Material) (nm : String) :
    (nm ∉ names tbl → get_params tbl nm = (1, 0)) ∧
    (∀ m ∈ tbl, (names tbl).Nodup → m.name = nm → get_params tbl nm = (m.a, m.b)) := by
  induction tbl with
  | nil => exact ⟨fun _ => rfl, by simp⟩
  | cons d ds ih =>
      constructor
      · intro h
        rw [names_cons] at h
        have hd : d.name ≠ nm := fun hc => h (hc ▸ List.mem_cons_self _ _)
        have h' : nm ∉ names ds := fun hc => h (List.mem_cons_of_mem _ hc)
        simpa [get_params, hd] using ih.1 h'
      · intro m hm hnd hmn
        rw [names_cons] at hnd
        rcases List.mem_cons.mp hm with h1 | h1
        · subst h1
          simp [get_params, hmn]
        · have hnm : nm ∈ names ds := hmn ▸ List.mem_map_of_mem Material.name h1
          have hd : d.name ≠ nm := fun hc =>
            (List.nodup_cons.mp hnd).1 (hc ▸ hnm)
          simpa [get_params, hd] using ih.2 m h1 (List.nodup_cons.mp hnd).2 hmn

/-- C7 witness at a concrete table. -/
theorem C7_witness :
    get_params [⟨"brick", 2, 3⟩, ⟨"steel", 45, -(1/50)⟩] "mystery" = (1, 0) ∧
    get_params [⟨"brick", 2, 3⟩, ⟨"steel", 45, -(1/50)⟩] "brick" = (2, 3) :=
  ⟨(C7_claim [⟨"brick", 2, 3⟩, ⟨"steel", 45, -(1/50)⟩] "mystery").1 (by decide),
   (C7_claim [⟨"brick", 2, 3⟩, ⟨"steel", 45, -(1/50)⟩] "brick").2
     ⟨"brick", 2, 3⟩ (by decide) (by decide) rfl⟩

/-- C8: `rename` is literally delete-then-upsert, and renaming onto a name
that already exists overwrites that entry's coefficients without creating a
duplicate (the resulting table holds the new name exactly once). -/
theorem C8_claim (tbl : List Material) (oldN newN : String) (a b : ℚ) :
    rename tbl oldN newN a b = upsert (delete tbl oldN) newN a b ∧
    get_params (rename tbl oldN newN a b) newN = (a, b) ∧
    ((names tbl).Nodup → (names (rename tbl oldN newN a b)).count newN = 1) := by
  refine ⟨rfl, get_upsert _ _ _ _, fun h => ?_⟩
  unfold rename
  by_cases hm : newN ∈ names (delete tbl oldN)
  · rw [names_upsert_mem a b hm]
    exact List.count_eq_one_of_mem (nodup_delete tbl oldN h) hm
  · rw [names_upsert_not_mem a b hm, List.count_append]
    simp [List.count_eq_zero_of_not_mem hm]

/-- C8 witness: renaming `"x"` onto the existing `"y"` overwrites it. -/
theorem C8_witness :
    rename [⟨"x", 1, 1⟩, ⟨"y", 2, 2⟩] "x" "y" 5 6 =
      upsert (delete [⟨"x", 1, 1⟩, ⟨"y", 2, 2⟩] "x") "y" 5 6 ∧
    get_params (rename [⟨"x", 1, 1⟩, ⟨"y", 2, 2⟩] "x" "y" 5 6) "y" = (5, 6) ∧
    (names (rename [⟨"x", 1, 1⟩, ⟨"y", 2, 2⟩] "x" "y" 5 6)).count "y" = 1 :=
  ⟨(C8_claim [⟨"x", 1, 1⟩, ⟨"y", 2, 2⟩] "x" "y" 5 6).1,
   (C8_claim [⟨"x", 1, 1⟩, ⟨"y", 2, 2⟩] "x" "y" 5 6).2.1,
   (C8_claim [⟨"x", 1, 1⟩, ⟨"y", 2, 2⟩] "x" "y" 5 6).2.2 (by decide)⟩

/-- C9: name uniqueness is preserved by `upsert` (in-place update on a
match, append only when absent), by `delete`, and by `rename`. -/
theorem C9_claim (tbl : List Material) (nm : String) (a b : ℚ)
    (oldN newN : String) (a' b' : ℚ) (h : (names tbl).Nodup) :
    (names (upsert tbl nm a b)).Nodup ∧
    (names (delete tbl nm)).Nodup ∧
    (names (rename tbl oldN newN a' b')).Nodup :=
  ⟨nodup_upsert a b h, nodup_delete tbl nm h,
   nodup_upsert a' b' (nodup_delete tbl oldN h)⟩

/-! ### Helper lemmas: solver -/

theorem fixpointIter_succ (a b curr term : ℝ) (n : ℕ) (ti : ℝ) :
    fixpointIter a b curr term (n+1) ti =
      if |fpStep a b curr term ti - ti| < 0.1 then fpStep a b curr term ti
      else fixpointIter a b curr term n (fpStep a b curr term ti) := rfl

/-- With a constant conductivity law (`b = 0`) whose coefficient is not
clamped, every update of the inner loop lands on `curr + term / a`, so the
loop exits there (on the first or second round). -/
theorem fixpoint_const {a : ℝ} (ha : 0.01 ≤ a) (curr term ti : ℝ) :
    fixpointIter a 0 curr term 5 ti = curr + term / a := by
  have hstep : ∀ t : ℝ, fpStep a 0 curr term t = curr + term / a := by
    intro t
    unfold fpStep
    rw [zero_mul, add_zero, if_neg (not_lt.mpr ha)]
  rw [show (5:ℕ) = 4+1 from rfl, fixpointIter_succ, hstep]
  by_cases hbr : |curr + term / a - ti| < 0.1
  · rw [if_pos hbr]
  · rw [if_neg hbr, show (4:ℕ) = 3+1 from rfl, fixpointIter_succ, hstep,
        sub_self, abs_zero, if_pos (by norm_num)]

theorem sweep_nil (H Q curr : ℝ) : sweep H Q curr [] = (curr, []) := rfl

theorem sweep_cons (H Q curr : ℝ) (l : Layer) (ls : List Layer) :
    sweep H Q curr (l :: ls) =
      ((sweep H Q (fixpointIter l.a l.b curr (layerTerm H Q l) 5 (curr + 10)) ls).1,
       fixpointIter l.a l.b curr (layerTerm H Q l) 5 (curr + 10) ::
         (sweep H Q (fixpointIter l.a l.b curr (layerTerm H Q l) 5 (curr + 10)) ls).2) := rfl

theorem sweep_len (H Q : ℝ) (ls : List Layer) :
    ∀ curr : ℝ, (sweep H Q curr ls).2.length = ls.length := by
  induction ls with
  | nil => intro curr; rfl
  | cons l ls ih =>
      intro curr
      rw [sweep_cons, List.length_cons, ih, List.length_cons]

theorem sweep_fst_getLast (H Q : ℝ) (ls : List Layer) :
    ∀ curr : ℝ,
      (curr :: (sweep H Q curr ls).2).getLast? = some (sweep H Q curr ls).1 := by
  induction ls with
  | nil => intro curr; rfl
  | cons l ls ih =>
      intro curr
      rw [sweep_cons]
      exact ih _

theorem mkLayers_length (specs : List LayerSpec) :
    ∀ rc : ℝ, (mkLayers rc specs).length = specs.length := by
  induction specs with
  | nil => intro rc; rfl
  | cons s rest ih =>
      intro rc
      rw [mkLayers, List.length_cons, List.length_cons, ih]

theorem bisect_zero (c : Ctx) (low high : ℝ) : bisect c low high 0 = none := rfl

theorem bisect_succ (c : Ctx) (low high : ℝ) (n : ℕ) :
    bisect c low high (n+1) =
      (if |(if currAt c ((low + high)/2) < c.t0 then high else (low + high)/2) -
           (if currAt c ((low + high)/2) < c.t0 then (low + high)/2 else low)| < 0.05 then
        some (mkRes c ((low + high)/2))
      else
        bisect c (if currAt c ((low + high)/2) < c.t0 then (low + high)/2 else low)
                 (if currAt c ((low + high)/2) < c.t0 then high else (low + high)/2) n) := rfl

/-- Every result the bisection returns was built by `mkRes` at some
candidate surface temperature. -/
theorem bisect_shape (c : Ctx) :
    ∀ (n : ℕ) (low high : ℝ) (r : ThermalResult),
      bisect c low high n = some r → ∃ ts, r = mkRes c ts := by
  intro n
  induction n with
  | zero => intro low high r h; exact absurd h (by rw [bisect_zero]; simp)
  | succ n ih =>
      intro low high r h
      rw [bisect_succ] at h
      by_cases hc : currAt c ((low + high)/2) < c.t0
      · simp only [if_pos hc] at h
        by_cases hf : |high - (low + high)/2| < 0.05
        · rw [if_pos hf] at h
          exact ⟨(low + high)/2, (Option.some.inj h).symm⟩
        · rw [if_neg hf] at h
          exact ih _ _ _ h
      · simp only [if_neg hc] at h
        by_cases hf : |(low + high)/2 - low| < 0.05
        · rw [if_pos hf] at h
          exact ⟨(low + high)/2, (Option.some.inj h).symm⟩
        · rw [if_neg hf] at h
          exact ih _ _ _ h

/-- Bracket containment: any result emitted from the bracket `(low, high)`
has its surface temperature strictly inside the bracket. -/
theorem bisect_sound (c : Ctx) :
    ∀ (n : ℕ) (low high : ℝ) (r : ThermalResult),
      low < high → bisect c low high n = some r → low < r.ts ∧ r.ts < high := by
  intro n
  induction n with
  | zero => intro low high r _ h; exact absurd h (by rw [bisect_zero]; simp)
  | succ n ih =>
      intro low high r hlt h
      have hm1 : low < (low + high)/2 := by linarith
      have hm2 : (low + high)/2 < high := by linarith
      rw [bisect_succ] at h
      by_cases hc : currAt c ((low + high)/2) < c.t0
      · simp only [if_pos hc] at h
        by_cases hf : |high - (low + high)/2| < 0.05
        · rw [if_pos hf] at h
          obtain rfl : mkRes c ((low + high)/2) = r := Option.some.inj h
          exact ⟨hm1, hm2⟩
        · rw [if_neg hf] at h
          obtain ⟨ha, hb⟩ := ih _ _ _ hm2 h
          exact ⟨lt_trans hm1 ha, hb⟩
      · simp only [if_neg hc] at h
        by_cases hf : |(low + high)/2 - low| < 0.05
        · rw [if_pos hf] at h
          obtain rfl : mkRes c ((low + high)/2) = r := Option.some.inj h
          exact ⟨hm1, hm2⟩
        · rw [if_neg hf] at h
          obtain ⟨ha, hb⟩ := ih _ _ _ hm1 h
          exact ⟨ha, lt_trans hb hm2⟩

/-- Each iteration halves the bracket, so a bracket of width below
`0.05·2^(n+1)` converges within `n+1` iterations. -/
theorem bisect_converges (c : Ctx) :
    ∀ (n : ℕ) (low high : ℝ),
      low < high → high - low < 0.05 * 2^(n+1) → (bisect c low high (n+1)).isSome := by
  intro n
  induction n with
  | zero =>
      intro low high hlt hw
      rw [bisect_succ]
      have hw' : (high - low)/2 < 0.05 := by norm_num at hw; linarith
      by_cases hc : currAt c ((low + high)/2) < c.t0
      · simp only [if_pos hc]
        rw [if_pos (by rw [show high - (low + high)/2 = (high - low)/2 by ring,
              abs_of_pos (by linarith)]; exact hw')]
        rfl
      · simp only [if_neg hc]
        rw [if_pos (by rw [show (low + high)/2 - low = (high - low)/2 by ring,
              abs_of_pos (by linarith)]; exact hw')]
        rfl
  | succ n ih =>
      intro low high hlt hw
      rw [bisect_succ]
      have h2 : (2:ℝ)^(n+1+1) = 2^(n+1) * 2 := pow_succ 2 (n+1)
      have hw' : (high - low)/2 < 0.05 * 2^(n+1) := by
        rw [h2] at hw; linarith
      by_cases hc : currAt c ((low + high)/2) < c.t0
      · simp only [if_pos hc]
        by_cases hf : |high - (low + high)/2| < 0.05
        · rw [if_pos hf]; rfl
        · rw [if_neg hf]
          exact ih ((low + high)/2) high (by linarith)
            (by rw [show high - (low + high)/2 = (high - low)/2 by ring]; exact hw')
      · simp only [if_neg hc]
        by_cases hf : |(low + high)/2 - low| < 0.05
        · rw [if_pos hf]; rfl
        · rw [if_neg hf]
          exact ih low ((low + high)/2) (by linarith)
            (by rw [show (low + high)/2 - low = (high - low)/2 by ring]; exact hw')

/-- `calculate` succeeds whenever the initial bracket is nondegenerate and
narrower than `0.05·2^60`. -/
theorem calc_of_gap (p : Params) (h1 : p.ta < p.t0)
    (h2 : p.t0 - p.ta < 0.05 * 2^60) : (calculate p).isSome := by
  unfold calculate
  rw [show (60:ℕ) = 59+1 from rfl]
  exact bisect_converges (ctxOf p) 59 p.ta p.t0 h1 (by simpa using h2)

/-- With a degenerate bracket `t0 = ta`, the very first iteration updates
one end of the bracket to the midpoint `ta`, the convergence test
`|high - low| < 0.05` holds trivially, and a result is returned. -/
theorem calc_degenerate_eq (p : Params) (h : p.t0 = p.ta) :
    calculate p = some (mkRes (ctxOf p) ((p.ta + p.ta)/2)) := by
  unfold calculate
  rw [show (60:ℕ) = 59+1 from rfl, bisect_succ, h]
  by_cases hc : currAt (ctxOf p) ((p.ta + p.ta)/2) < (ctxOf p).t0
  · simp only [if_pos hc]
    rw [if_pos (by rw [show p.ta - (p.ta + p.ta)/2 = 0 by ring, abs_zero]; norm_num)]
  · simp only [if_neg hc]
    rw [if_pos (by rw [show (p.ta + p.ta)/2 - p.ta = 0 by ring, abs_zero]; norm_num)]

/-! ### Claims C1-C5, C10 -/

/-- C1 counterexample: the claim asserts that for `t0 ≤ ta` (in particular
`t0 = ta`) no result record is produced, but on `inpW1` (where
`t0 = ta = 25`) the solver returns a result. -/
theorem C1_counterexample : (calculate inpW1).isSome = true := by
  rw [calc_degenerate_eq inpW1 rfl]
  rfl

/-- C1 (amended): the solver has no up-front degenerate-bracket check; for
any input with `t0 = ta` the bisection converges on its first iteration and
returns a numeric result whose surface temperature equals `ta`. -/
theorem C1_claim (p : Params) (h : p.t0 = p.ta) :
    ∃ r, calculate p = some r ∧ r.ts = p.ta := by
  refine ⟨_, calc_degenerate_eq p h, ?_⟩
  have hts : (mkRes (ctxOf p) ((p.ta + p.ta)/2)).ts = (p.ta + p.ta)/2 := rfl
  rw [hts]
  ring

/-- C1 witness at the concrete degenerate input. -/
theorem C1_witness :
    inpW1.t0 = inpW1.ta ∧ ∃ r, calculate inpW1 = some r ∧ r.ts = inpW1.ta :=
  ⟨rfl, C1_claim inpW1 rfl⟩

/-- C2: for a single constant-conductivity layer (`b = 0`, no clamp), the
reconstructed temperature drop is exactly the closed-form cylindrical value
`Q·ln(ro/ri)/(2π·H·a)`, computed as `(Q/H)·ln(ro/ri)/(2π)` divided by `a`. -/
theorem C2_claim (H Q a ri ro ts : ℝ) (hH : H ≠ 0) (ha : 0.01 ≤ a) :
    (sweep H Q ts [⟨a, 0, ri, ro⟩]).1 =
      ts + Q * Real.log (ro / ri) / (2 * Real.pi * H * a) := by
  have h1 : (sweep H Q ts [⟨a, 0, ri, ro⟩]).1 =
      fixpointIter a 0 ts (layerTerm H Q ⟨a, 0, ri, ro⟩) 5 (ts + 10) := rfl
  rw [h1, fixpoint_const ha]
  simp only [layerTerm]
  have ha0 : a ≠ 0 := ne_of_gt (lt_of_lt_of_le (by norm_num) ha)
  have hπ : Real.pi ≠ 0 := Real.pi_ne_zero
  field_simp
  ring

/-- C2 witness at concrete values. -/
theorem C2_witness :
    (1:ℝ) ≠ 0 ∧ (0.01:ℝ) ≤ 1 ∧
    (sweep 1 2 0 [⟨1, 0, 1, 2⟩]).1 = 0 + 2 * Real.log (2/1) / (2*Real.pi*1*1) :=
  ⟨by norm_num, by norm_num, C2_claim 1 2 1 1 2 0 (by norm_num) (by norm_num)⟩

/-- C3 (amended): a returned temperature profile has one more entry than
the layer stack, is the reversal of the outer→inner traversal (hence runs
innermost→outermost), its last entry is the solved surface temperature, and
its FIRST entry is the reconstructed (check) inner-wall temperature — which
need not equal `t0` exactly. -/
theorem C3_claim (p : Params) (r : ThermalResult) (h : calculate p = some r) :
    r.temps.length = p.specs.length + 1 ∧
    r.temps.getLast? = some r.ts ∧
    r.temps.head? = some (currAt (ctxOf p) r.ts) := by
  obtain ⟨ts, rfl⟩ := bisect_shape (ctxOf p) 60 p.ta p.t0 _ h
  refine ⟨?_, ?_, ?_⟩
  · have ht : (mkRes (ctxOf p) ts).temps =
        (ts :: (sweep (ctxOf p).H (QOf (ctxOf p) ts) ts (ctxOf p).layers.reverse).2).reverse := rfl
    rw [ht, List.length_reverse, List.length_cons, sweep_len, List.length_reverse]
    rw [show (ctxOf p).layers = mkLayers (p.D/2) p.specs from rfl, mkLayers_length]
  · rw [show (mkRes (ctxOf p) ts).temps =
        (ts :: (sweep (ctxOf p).H (QOf (ctxOf p) ts) ts (ctxOf p).layers.reverse).2).reverse from rfl,
      List.getLast?_reverse]
    rfl
  · rw [show (mkRes (ctxOf p) ts).temps =
        (ts :: (sweep (ctxOf p).H (QOf (ctxOf p) ts) ts (ctxOf p).layers.reverse).2).reverse from rfl,
      List.head?_reverse, sweep_fst_getLast]
    rfl

/-- C3 witness: a converging concrete run satisfying the amended claim. -/
theorem C3_witness :
    ∃ r, calculate inpW0 = some r ∧ r.temps.length = 1 ∧
      r.temps.getLast? = some r.ts ∧
      r.temps.head? = some (currAt (ctxOf inpW0) r.ts) := by
  obtain ⟨r, hr⟩ := Option.isSome_iff_exists.mp
    (calc_of_gap inpW0 (by norm_num [inpW0]) (by norm_num [inpW0]))
  obtain ⟨h1, h2, h3⟩ := C3_claim inpW0 r hr
  exact ⟨r, hr, by simpa [inpW0] using h1, h2, h3⟩

/-- C3 counterexample: the claim asserts the first entry of the returned
profile equals `t0` exactly, but on the converging run `inpW1` (with
`t0 = 25`) the first entry is the reconstructed inner temperature
`25 + term > 25`. -/
theorem C3_counterexample :
    ∃ r, calculate inpW1 = some r ∧ r.temps.head? ≠ some (25:ℝ) := by
  refine ⟨_, calc_degenerate_eq inpW1 rfl, ?_⟩
  have hts : ((inpW1.ta : ℝ) + inpW1.ta)/2 = 25 := by norm_num [inpW1]
  rw [hts]
  have hH : (ctxOf inpW1).H = 1 := rfl
  have hlay : (ctxOf inpW1).layers = [⟨1, 0, 1, 2⟩] := by
    show mkLayers (inpW1.D/2) inpW1.specs = _
    norm_num [inpW1, mkLayers]
  have htemps : (mkRes (ctxOf inpW1) 25).temps =
      (25 :: (sweep (ctxOf inpW1).H (QOf (ctxOf inpW1) 25) 25
        (ctxOf inpW1).layers.reverse).2).reverse := rfl
  rw [htemps, hlay, hH, List.reverse_singleton]
  simp only [sweep_cons, sweep_nil]
  rw [fixpoint_const (by norm_num : (0.01:ℝ) ≤ 1)]
  -- positivity of the single-layer conduction term
  have hdt : dtOf (ctxOf inpW1) 25 = 1e-3 := by
    unfold dtOf ctxOf inpW1
    norm_num
  have hxiv : (ctxOf inpW1).xiv = 1 := by
    unfold ctxOf inpW1 xiFactor vtotal vfan
    norm_num [Real.sqrt_one]
  have hcpos : (ctxOf inpW1).Cpos = 2.2 := rfl
  have hhrad : hradOf (ctxOf inpW1) 25 = 0 := by
    unfold hradOf ctxOf inpW1
    norm_num
  have hA : (ctxOf inpW1).Aout = 4 * Real.pi := by
    show 2 * Real.pi * outerRadius (inpW1.D/2) inpW1.specs * inpW1.H = 4 * Real.pi
    norm_num [inpW1, outerRadius]
    ring
  have hhc : 0 < hconvOf (ctxOf inpW1) 25 := by
    unfold hconvOf
    rw [hdt, hxiv, hcpos]
    positivity
  have hQ : 0 < QOf (ctxOf inpW1) 25 := by
    unfold QOf htotOf
    rw [hhrad, add_zero, hdt, hA]
    exact mul_pos (mul_pos hhc (by positivity)) (by norm_num)
  have hT : 0 < layerTerm 1 (QOf (ctxOf inpW1) 25) ⟨1, 0, 1, 2⟩ := by
    unfold layerTerm
    simp only
    have hlog : 0 < Real.log ((2:ℝ)/1) := Real.log_pos (by norm_num)
    exact div_pos (mul_pos (by simpa using hQ) hlog) (by positivity)
  simp only [List.head?_reverse, List.getLast?_cons_cons, List.getLast?_singleton,
    ne_eq, Option.some.injEq, div_one]
  intro hcontra
  linarith

/-- C4: whenever `ta < t0` and the solver returns a result, the solved
surface temperature lies strictly between `ta` and `t0`. -/
theorem C4_claim (p : Params) (r : ThermalResult) (h1 : p.ta < p.t0)
    (h : calculate p = some r) : p.ta < r.ts ∧ r.ts < p.t0 :=
  bisect_sound (ctxOf p) 60 p.ta p.t0 r h1 h

/-- C4 witness: a converging concrete run with `ta = 0 < t0 = 1`. -/
theorem C4_witness :
    ∃ r, calculate inpW0 = some r ∧ inpW0.ta < r.ts ∧ r.ts < inpW0.t0 := by
  obtain ⟨r, hr⟩ := Option.isSome_iff_exists.mp
    (calc_of_gap inpW0 (by norm_num [inpW0]) (by norm_num [inpW0]))
  exact ⟨r, hr, C4_claim inpW0 r (by norm_num [inpW0]) hr⟩

/-- C5 counterexample: the claim asserts `ξ ≥ 1` for EVERY input, but a
negative natural velocity (nothing rejects it) gives `ξ < 1`. -/
theorem C5_counterexample : xiFactor (-(1/5)) 0 0 < 1 := by
  unfold xiFactor vtotal vfan
  rw [if_neg (by norm_num)]
  refine (Real.sqrt_lt' one_pos).2 ?_
  norm_num

/-- C5 (amended): the fan velocity and total velocity are computed by the
stated formulas, and the correction factor satisfies `ξ ≥ 1` whenever the
natural velocity is nonnegative (the fan contribution is never negative). -/
theorem C5_claim (vn q d : ℝ) :
    vfan q d = (if 0 < q ∧ 0 < d then q / (Real.pi * (d/2)^2) else 0) ∧
    vtotal vn q d = vn + vfan q d ∧
    (0 ≤ vn → 1 ≤ xiFactor vn q d) := by
  refine ⟨rfl, rfl, fun hvn => ?_⟩
  have hfan : 0 ≤ vfan q d := by
    unfold vfan
    split_ifs with hc
    · exact div_nonneg (le_of_lt hc.1)
        (le_of_lt (mul_pos Real.pi_pos (pow_pos (half_pos hc.2) 2)))
    · exact le_refl 0
  have harg : 1 ≤ (vtotal vn q d + 0.348) / 0.348 := by
    rw [le_div_iff₀ (by norm_num : (0:ℝ) < 0.348)]
    unfold vtotal
    linarith
  calc (1:ℝ) = Real.sqrt 1 := (Real.sqrt_one).symm
    _ ≤ Real.sqrt ((vtotal vn q d + 0.348) / 0.348) := Real.sqrt_le_sqrt harg
    _ = xiFactor vn q d := rfl

/-- C5 witness at zero velocities. -/
theorem C5_witness :
    vfan 0 0 = (if (0:ℝ) < 0 ∧ (0:ℝ) < 0 then 0 / (Real.pi * ((0:ℝ)/2)^2) else 0) ∧
    vtotal 0 0 0 = 0 + vfan 0 0 ∧
    1 ≤ xiFactor 0 0 0 :=
  ⟨(C5_claim 0 0 0).1, (C5_claim 0 0 0).2.1, (C5_claim 0 0 0).2.2 (le_refl 0)⟩

/-- C10: if `ta < t0` and the initial bracket is narrower than `0.05·2^60`,
halving reaches the `0.05` tolerance within the 60-iteration cap, so the
solver always returns a result. -/
theorem C10_claim (p : Params) (h1 : p.ta < p.t0)
    (h2 : p.t0 - p.ta < 0.05 * 2^60) : (calculate p).isSome :=
  calc_of_gap p h1 h2

/-- C10 witness at the concrete bracket `[0, 1]`. -/
theorem C10_witness :
    inpW0.ta < inpW0.t0 ∧ inpW0.t0 - inpW0.ta < 0.05 * 2^60 ∧
    (calculate inpW0).isSome = true :=
  ⟨by norm_num [inpW0], by norm_num [inpW0],
   C10_claim inpW0 (by norm_num [inpW0]) (by norm_num [inpW0])⟩

/-- C9 witness at a concrete table. -/
theorem C9_witness :
    (names (upsert [⟨"x", 1, 1⟩, ⟨"y", 2, 2⟩] "x" 3 4)).Nodup ∧
    (names (delete [⟨"x", 1, 1⟩, ⟨"y", 2, 2⟩] "x")).Nodup ∧
    (names (rename [⟨"x", 1, 1⟩, ⟨"y", 2, 2⟩] "x" "y" 5 6)).Nodup :=
  C9_claim [⟨"x", 1, 1⟩, ⟨"y", 2, 2⟩] "x" 3 4 "x" "y" 5 6 (by decide)

end Furnace
